import Mathlib

/-!
# Verification of the godbolt cog (`src/godbolt/godbolt.py`)

Shallow embedding of the pure core of the godbolt Discord cog: the raw
code-block parser `_unpack_raw`, the output formatter `_to_codeblock`, the
two `CompilerOptions` presets, and the pre-HTTP / post-HTTP phases of the
`run` and `dissassemble` commands.  Python strings are embedded as
`List Char`; Python `str.find`, slicing and `re.match (\w+)` are embedded
explicitly below.
-/

set_option autoImplicit false

namespace Godbolt

/-- Python strings are modelled as lists of characters. -/
abbrev Str := List Char

/-- The backtick character (written via its code point). -/
def btick : Char := Char.ofNat 96

/-- The triple-backtick fence marker `"` ++ [btick,btick,btick] ++ "`". -/
def fence : Str := [btick, btick, btick]

/-- `re.match (\w+)` word characters: letters, digits, underscore
(ASCII embedding of Python's `\w`). -/
def isWordChar (c : Char) : Bool := c.isAlphanum || c = '_'

/-- Index of the first occurrence of `sub` in `s` (`str.find` relative to the
start of `s`); `none` when absent. -/
def firstIdx (sub : Str) : Str → Option Nat
  | [] => if sub.isPrefixOf ([] : Str) then some 0 else none
  | c :: cs =>
    if sub.isPrefixOf (c :: cs) then some 0
    else (firstIdx sub cs).map (· + 1)

/-- Python `s.find(sub, start)`: lowest absolute index `≥ start` at which
`sub` occurs in `s`, `none` (Python `-1`) when absent. -/
def pyFind (s sub : Str) (start : Nat) : Option Nat :=
  (firstIdx sub (s.drop start)).map (· + start)

/-- Result of `_unpack_raw`: the `(lang, args, source)` triple in the order
the Python function returns them, or the message of the raised `ValueError`. -/
inductive ParseResult where
  | ok (lang args source : Str)
  | err (msg : Str)
  deriving DecidableEq

/-- Message of the two fence-related `ValueError`s in `_unpack_raw`. -/
def fmtMsg : Str :=
  "Invalid source code format given. Please encode the source code in code blocks.".data

/-- Message of the missing-language `ValueError` in `_unpack_raw`. -/
def langMsg : Str := "Language not specified, as expected per format.".data

/-- Embedding of `GodBolt._unpack_raw` (godbolt.py lines 106-129).
Python slices `s[a:b]` with non-negative clamped bounds are `(s.take b).drop a`;
`re.match (\w+)` succeeds iff the leading `takeWhile isWordChar` run is
non-empty, and its span end is that run's length.  The Python
`args = raw[0:start_idx] or ""` never takes the `or` branch because
`start_idx ≥ 3` there, so it is embedded as the plain slice. -/
def unpack_raw (raw : Str) : ParseResult :=
  match pyFind raw fence 0 with
  | none => .err fmtMsg
  | some i =>
    let start_idx := i + 3
    match pyFind raw fence start_idx with
    | none => .err fmtMsg
    | some end_idx =>
      let args := raw.take start_idx
      let inner := (raw.take end_idx).drop start_idx
      let lang_end := (inner.takeWhile isWordChar).length
      if lang_end = 0 then .err langMsg
      else .ok (inner.take lang_end) args ((inner.take end_idx).drop (lang_end + 1))

/-- One element of the JSON fragment lists (`stdout`, `stderr`, `asm`):
a record exposing a `text` field. -/
structure Fragment where
  text : Str
  deriving DecidableEq

/-- `"\n".join(...)` over the embedded strings. -/
def joinNL : List Str → Str
  | [] => []
  | [s] => s
  | s :: rest => s ++ '\n' :: joinNL rest

/-- The opening marker of the formatter output: fence followed by a newline. -/
def opener : Str := fence ++ ['\n']

/-- Embedding of `GodBolt._to_codeblock` (godbolt.py lines 131-137):
empty fragment list gives `""`; otherwise the `text` fields are joined with
newlines, truncated to the first `limit` characters, and wrapped in
the fixed fence markers. -/
def to_codeblock (data : List Fragment) (limit : Nat) : Str :=
  if data.length = 0 then []
  else opener ++ (joinNL (data.map Fragment.text)).take limit ++ fence

/-- Spec-side predicate: the content `s` starts with a word character
(false in particular when `s` is empty). -/
def startsWithWordChar (s : Str) : Bool :=
  match s with
  | [] => false
  | c :: _ => isWordChar c

/-- Spec-side predicate: a triple-backtick marker occurs in `s` at index `i`. -/
def fenceAt (s : Str) (i : Nat) : Prop := fence.isPrefixOf (s.drop i) = true

instance (s : Str) (i : Nat) : Decidable (fenceAt s i) :=
  inferInstanceAs (Decidable (_ = true))

/-- Embedding of the `CompilerOptions` dataclass; the two `Dict[str, bool]`
fields are kept as association lists in source order. -/
structure CompilerOptions where
  compilerOptions : List (String × Bool)
  filters : List (String × Bool)
  userArguments : Str
  tools : List String
  libraries : List String
  deriving DecidableEq

/-- `CompilerOptions.default_execute` (godbolt.py lines 19-26). -/
def CompilerOptions.default_execute (comp_args : Str) : CompilerOptions :=
  ⟨[("executorRequest", true)], [("execute", true)], comp_args, [], []⟩

/-- `CompilerOptions.default_disassembly` (godbolt.py lines 28-45); its Python
signature defaults `comp_args` to `""`, and `godbolt_asm` calls it with no
argument, so the call below passes `[]`. -/
def CompilerOptions.default_disassembly (comp_args : Str) : CompilerOptions :=
  ⟨[("skipAsm", false), ("executorRequest", false)],
   [("binary", false), ("commentOnly", true), ("demangle", true),
    ("directives", true), ("execute", false), ("intel", true),
    ("labels", true), ("libraryCode", false), ("trim", false)],
   comp_args, [], []⟩

/-- Embedding of the `RequestData` dataclass (field order as in source). -/
structure RequestData where
  source : Str
  compiler : String
  lang : Str
  options : CompilerOptions
  allowStoreCodeDebug : Bool
  deriving DecidableEq

/-- What a command does before (instead of) its HTTP call: either it sends a
single error message and returns, or it proceeds to POST exactly one request. -/
inductive CommandAction where
  | sendMsg (msg : Str)
  | httpRequest (data : RequestData)
  deriving DecidableEq

/-- The fixed text preceding a parse-failure message: `f"Error in formatting. {err}"`. -/
def errPreamble : Str := "Error in formatting. ".data

/-- Pre-HTTP phase of `godbolt_run` (godbolt.py lines 151-158): parse the raw
block; on `ValueError` send the error message and return, otherwise build the
request with the `Execute` preset carrying the parsed `args` string.
The `comp_args` command parameter is unused by this phase, as in the source. -/
def godbolt_run_phase1 (compiler : String) (comp_args : Str) (raw : Str) : CommandAction :=
  match unpack_raw raw with
  | .err e => .sendMsg (errPreamble ++ e)
  | .ok lang args source =>
      .httpRequest ⟨source, compiler, lang, CompilerOptions.default_execute args, false⟩

/-- Pre-HTTP phase of `godbolt_asm` (godbolt.py lines 194-201): parse the raw
block; on `ValueError` send the error message and return, otherwise build the
request with the `Disassemble` preset, called with no argument (so
`userArguments` is the default empty string; the parsed `args` is dropped). -/
def godbolt_asm_phase1 (compiler : String) (raw : Str) : CommandAction :=
  match unpack_raw raw with
  | .err e => .sendMsg (errPreamble ++ e)
  | .ok lang args source =>
      .httpRequest ⟨source, compiler, lang, CompilerOptions.default_disassembly [], false⟩

/-- The nested `buildResult` record of a compile-for-execution response. -/
structure BuildResult where
  stdout : List Fragment
  stderr : List Fragment
  code : Int
  deriving DecidableEq

/-- The JSON response consumed by `godbolt_run` (fields it accesses). -/
structure ExecResponse where
  didExecute : Bool
  stdout : List Fragment
  stderr : List Fragment
  code : Int
  buildResult : BuildResult
  deriving DecidableEq

/-- The four local variables of `godbolt_run` after response interpretation:
status line, rendered stdout, rendered stderr, exit code. -/
structure RunReport where
  build_result : Str
  stdout : Str
  stderr : Str
  exit_code : Int
  deriving DecidableEq

/-- Python `s or "EMPTY"`: the string itself, or `"EMPTY"` when it is empty. -/
def orEmpty (s : Str) : Str := if s = [] then "EMPTY".data else s

/-- Response interpretation of `godbolt_run` (godbolt.py lines 165-179),
including the `stdout = stdout or "EMPTY"` / `stderr = stderr or "EMPTY"`
lines. -/
def godbolt_run_interpret (resp : ExecResponse) : RunReport :=
  if resp.didExecute then
    ⟨"Execution successful.".data,
     orEmpty (to_codeblock resp.stdout 500),
     orEmpty (to_codeblock resp.stderr 500),
     resp.code⟩
  else
    ⟨"**Compilation failed.**".data,
     orEmpty (to_codeblock resp.buildResult.stdout 500),
     orEmpty (to_codeblock resp.buildResult.stderr 500),
     resp.buildResult.code⟩

/-- The JSON response consumed by `godbolt_asm` (fields it accesses). -/
structure AsmResponse where
  code : Int
  asm : List Fragment
  stderr : List Fragment
  deriving DecidableEq

/-- Response interpretation of `godbolt_asm` (godbolt.py lines 208-214):
the `(build_result, output)` pair. -/
def godbolt_asm_interpret (resp : AsmResponse) : Str × Str :=
  if resp.code = 0 then
    ("Compilation successful.".data, to_codeblock resp.asm 1500)
  else
    ("**Compilation failed.**".data, to_codeblock resp.stderr 1500)

/-- Concrete executed response used to instantiate the `godbolt_run` theorems. -/
def respExecuted : ExecResponse :=
  ⟨true, [⟨"hi".data⟩], [], 0, ⟨[], [], 0⟩⟩

/-- Concrete failed-build response used to instantiate the `godbolt_run` theorems. -/
def respFailed : ExecResponse :=
  ⟨false, [], [], 0, ⟨[], [⟨"boom".data⟩], 1⟩⟩

/-- Concrete successful disassembly response for the `godbolt_asm` theorems. -/
def asmRespOk : AsmResponse := ⟨0, [⟨"mov eax, 1".data⟩], []⟩

/-- Concrete failed disassembly response for the `godbolt_asm` theorems. -/
def asmRespBad : AsmResponse := ⟨1, [], [⟨"syntax error".data⟩]⟩

/-! ## Characterization of the embedded `str.find` -/

theorem isPrefixOf_nil_false {sub : Str} (h : sub ≠ []) :
    sub.isPrefixOf ([] : Str) = false := by
  cases sub with
  | nil => exact absurd rfl h
  | cons c cs => rfl

theorem isPrefixOf_exists {l m : Str} (h : l.isPrefixOf m = true) :
    ∃ t, m = l ++ t := by
  obtain ⟨t, ht⟩ := List.isPrefixOf_iff_prefix.mp h
  exact ⟨t, ht.symm⟩

theorem firstIdx_none_iff {sub : Str} (hsub : sub ≠ []) :
    ∀ s : Str, firstIdx sub s = none ↔ ∀ i, sub.isPrefixOf (s.drop i) = false := by
  intro s
  induction s with
  | nil => simp [firstIdx, isPrefixOf_nil_false hsub]
  | cons c cs ih =>
    constructor
    · intro h i
      cases hp : sub.isPrefixOf (c :: cs) with
      | true => simp [firstIdx, hp] at h
      | false =>
        cases i with
        | zero => simpa using hp
        | succ k =>
          have h2 : firstIdx sub cs = none := by
            simp [firstIdx, hp, Option.map_eq_none'] at h
            exact h
          simpa [List.drop_succ_cons] using (ih.mp h2) k
    · intro h
      have hp : sub.isPrefixOf (c :: cs) = false := by simpa using h 0
      have h2 : ∀ k, sub.isPrefixOf (cs.drop k) = false := fun k => by
        simpa [List.drop_succ_cons] using h (k + 1)
      simp [firstIdx, hp, Option.map_eq_none', ih.mpr h2]

theorem firstIdx_some_iff {sub : Str} (hsub : sub ≠ []) :
    ∀ (s : Str) (i : Nat),
      firstIdx sub s = some i ↔
        (sub.isPrefixOf (s.drop i) = true ∧
         ∀ j, j < i → sub.isPrefixOf (s.drop j) = false) := by
  intro s
  induction s with
  | nil =>
    intro i
    simp [firstIdx, isPrefixOf_nil_false hsub]
  | cons c cs ih =>
    intro i
    by_cases hp : sub.isPrefixOf (c :: cs) = true
    · constructor
      · intro h
        have hi : 0 = i := by simpa [firstIdx, hp] using h
        subst hi
        exact ⟨by simpa using hp, fun j hj => absurd hj (Nat.not_lt_zero j)⟩
      · rintro ⟨h1, h2⟩
        cases i with
        | zero => simp [firstIdx, hp]
        | succ k =>
          have h0 := h2 0 (Nat.succ_pos k)
          rw [List.drop_zero, hp] at h0
          cases h0
    · have hp' : sub.isPrefixOf (c :: cs) = false := Bool.eq_false_iff.mpr hp
      cases i with
      | zero =>
        constructor
        · intro h
          exfalso
          simp [firstIdx, hp', Option.map_eq_some'] at h
        · rintro ⟨h1, -⟩
          rw [List.drop_zero] at h1
          exact absurd h1 hp
      | succ k =>
        constructor
        · intro h
          simp only [firstIdx, hp', Bool.false_eq_true, if_false,
            Option.map_eq_some'] at h
          obtain ⟨a, ha, hak⟩ := h
          have hak' : k = a := by omega
          subst hak'
          obtain ⟨h1, h2⟩ := (ih k).mp ha
          refine ⟨by simpa [List.drop_succ_cons] using h1, ?_⟩
          intro j hj
          cases j with
          | zero => rw [List.drop_zero]; exact hp'
          | succ m =>
            have := h2 m (by omega)
            simpa [List.drop_succ_cons] using this
        · rintro ⟨h1, h2⟩
          have h1' : sub.isPrefixOf (cs.drop k) = true := by
            simpa [List.drop_succ_cons] using h1
          have h2' : ∀ j, j < k → sub.isPrefixOf (cs.drop j) = false := by
            intro j hj
            have := h2 (j + 1) (by omega)
            simpa [List.drop_succ_cons] using this
          have hR : firstIdx sub cs = some k := (ih k).mpr ⟨h1', h2'⟩
          simp [firstIdx, hp', hR]

theorem pyFind_none_iff {sub : Str} (hsub : sub ≠ []) (s : Str) (start : Nat) :
    pyFind s sub start = none ↔
      ∀ j, start ≤ j → sub.isPrefixOf (s.drop j) = false := by
  unfold pyFind
  rw [Option.map_eq_none', firstIdx_none_iff hsub]
  constructor
  · intro h j hj
    have h2 := h (j - start)
    rw [List.drop_drop, Nat.add_sub_cancel' hj] at h2
    exact h2
  · intro h i
    rw [List.drop_drop]
    exact h (start + i) (Nat.le_add_right start i)

theorem pyFind_some_iff {sub : Str} (hsub : sub ≠ []) (s : Str) (start i : Nat) :
    pyFind s sub start = some i ↔
      (start ≤ i ∧ sub.isPrefixOf (s.drop i) = true ∧
       ∀ j, start ≤ j → j < i → sub.isPrefixOf (s.drop j) = false) := by
  unfold pyFind
  rw [Option.map_eq_some']
  constructor
  · rintro ⟨a, ha, hai⟩
    obtain ⟨h1, h2⟩ := (firstIdx_some_iff hsub _ a).mp ha
    subst hai
    refine ⟨by omega, ?_, ?_⟩
    · rwa [List.drop_drop, Nat.add_comm start a] at h1
    · intro j hj1 hj2
      have h3 := h2 (j - start) (by omega)
      rwa [List.drop_drop, Nat.add_sub_cancel' hj1] at h3
  · rintro ⟨hle, h1, h2⟩
    refine ⟨i - start, ?_, by omega⟩
    apply (firstIdx_some_iff hsub _ _).mpr
    constructor
    · rw [List.drop_drop, Nat.add_sub_cancel' hle]
      exact h1
    · intro j hj
      rw [List.drop_drop]
      exact h2 (start + j) (by omega) (by omega)

theorem startsWithWordChar_false_iff (s : Str) :
    startsWithWordChar s = false ↔ (s.takeWhile isWordChar).length = 0 := by
  cases s with
  | nil => simp [startsWithWordChar]
  | cons c cs =>
    by_cases h : isWordChar c
    · simp [startsWithWordChar, h, List.takeWhile_cons]
    · simp [startsWithWordChar, h, List.takeWhile_cons]

theorem least_fence_unique {raw : Str} {i i' : Nat}
    (h1 : fenceAt raw i) (h2 : ∀ k, k < i → ¬ fenceAt raw k)
    (h3 : fenceAt raw i') (h4 : ∀ k, k < i' → ¬ fenceAt raw k) : i = i' := by
  by_contra hne
  rcases Nat.lt_or_ge i i' with h | h
  · exact h4 i h h1
  · exact h2 i' (by omega) h3

theorem least_fence_from_unique {raw : Str} {a j j' : Nat}
    (h1 : fenceAt raw j) (h2 : a ≤ j) (h3 : ∀ k, a ≤ k → k < j → ¬ fenceAt raw k)
    (h4 : fenceAt raw j') (h5 : a ≤ j') (h6 : ∀ k, a ≤ k → k < j' → ¬ fenceAt raw k) :
    j = j' := by
  by_contra hne
  rcases Nat.lt_or_ge j j' with h | h
  · exact h6 j h2 h h1
  · exact h3 j' h5 (by omega) h4

theorem fence_ne_nil : fence ≠ ([] : Str) := by
  intro h
  cases h

theorem isPrefixOf_append_self (l t : Str) : l.isPrefixOf (l ++ t) = true :=
  List.isPrefixOf_iff_prefix.mpr (List.prefix_append l t)

theorem firstIdx_of_isPrefixOf {sub s : Str} (hs : s ≠ [])
    (h : sub.isPrefixOf s = true) : firstIdx sub s = some 0 := by
  cases s with
  | nil => exact absurd rfl hs
  | cons c cs => simp [firstIdx, h]

theorem fence_head_false {c : Char} (hc : c ≠ btick) (l : Str) :
    fence.isPrefixOf (c :: l) = false := by
  have hb : (btick == c) = false := by
    simp only [beq_eq_false_iff_ne, ne_eq]
    exact fun h => hc h.symm
  simp [fence, List.isPrefixOf, hb]

theorem noBtick_firstIdx (p s : Str) (hp : ∀ c ∈ p, c ≠ btick) :
    firstIdx fence (p ++ s) = (firstIdx fence s).map (· + p.length) := by
  induction p with
  | nil =>
    rw [List.nil_append]
    cases h : firstIdx fence s <;> simp [h]
  | cons c p ih =>
    have hc : c ≠ btick := hp c (List.mem_cons_self c p)
    have hh : fence.isPrefixOf (c :: (p ++ s)) = false := fence_head_false hc _
    have ih2 := ih fun d hd => hp d (List.mem_cons_of_mem c hd)
    simp only [List.cons_append, firstIdx, List.append_eq, hh, Bool.false_eq_true,
      if_false, ih2, Option.map_map, List.length_cons]
    cases h : firstIdx fence s with
    | none => rfl
    | some a =>
      simp only [h, Option.map_some', Function.comp]
      exact congrArg some (by omega)

theorem takeWhile_word_append (lang rest : Str)
    (h : ∀ c ∈ lang, isWordChar c = true)
    (hr : startsWithWordChar rest = false) :
    (lang ++ rest).takeWhile isWordChar = lang := by
  induction lang with
  | nil =>
    cases rest with
    | nil => rfl
    | cons c cs =>
      have : isWordChar c = false := hr
      simp [List.takeWhile_cons, this]
  | cons c l ih =>
    have hc : isWordChar c = true := h c (List.mem_cons_self c l)
    have ih2 := ih fun d hd => h d (List.mem_cons_of_mem c hd)
    simp [List.takeWhile_cons, hc, ih2]

/-- C3: `_unpack_raw` fails with a `ValueError` exactly when the input has no
triple-backtick marker, or no second triple-backtick marker after (the three
characters of) the first, or the content between the fences does not start
with a word character; on every other input it succeeds. -/
theorem unpack_raw_err_iff (raw : Str) :
    (∃ e, unpack_raw raw = .err e) ↔
      ((∀ i, ¬ fenceAt raw i) ∨
       (∃ i, fenceAt raw i ∧ (∀ k, k < i → ¬ fenceAt raw k) ∧
          (∀ j, i + 3 ≤ j → ¬ fenceAt raw j)) ∨
       (∃ i j, fenceAt raw i ∧ (∀ k, k < i → ¬ fenceAt raw k) ∧
          fenceAt raw j ∧ i + 3 ≤ j ∧ (∀ k, i + 3 ≤ k → k < j → ¬ fenceAt raw k) ∧
          startsWithWordChar ((raw.take j).drop (i + 3)) = false)) := by
  rcases h0 : pyFind raw fence 0 with _ | i
  · have hnone := (pyFind_none_iff fence_ne_nil raw 0).mp h0
    constructor
    · intro _
      refine Or.inl fun i => ?_
      simp [fenceAt, hnone i (Nat.zero_le i)]
    · intro _
      exact ⟨fmtMsg, by simp [unpack_raw, h0]⟩
  · obtain ⟨-, hI, hIleast⟩ := (pyFind_some_iff fence_ne_nil raw 0 i).mp h0
    have hfa : fenceAt raw i := hI
    have hleast : ∀ k, k < i → ¬ fenceAt raw k := fun k hk => by
      simp [fenceAt, hIleast k (Nat.zero_le k) hk]
    rcases h1 : pyFind raw fence (i + 3) with _ | j
    · have hnone := (pyFind_none_iff fence_ne_nil raw (i + 3)).mp h1
      constructor
      · intro _
        exact Or.inr (Or.inl ⟨i, hfa, hleast, fun j hj => by
          simp [fenceAt, hnone j hj]⟩)
      · intro _
        exact ⟨fmtMsg, by simp [unpack_raw, h0, h1]⟩
    · obtain ⟨hj3, hJ, hJleast⟩ := (pyFind_some_iff fence_ne_nil raw (i + 3) j).mp h1
      have hfaJ : fenceAt raw j := hJ
      have hleastJ : ∀ k, i + 3 ≤ k → k < j → ¬ fenceAt raw k := fun k hk1 hk2 => by
        simp [fenceAt, hJleast k hk1 hk2]
      by_cases hL : (((raw.take j).drop (i + 3)).takeWhile isWordChar).length = 0
      · constructor
        · intro _
          exact Or.inr (Or.inr ⟨i, j, hfa, hleast, hfaJ, hj3, hleastJ,
            (startsWithWordChar_false_iff _).mpr hL⟩)
        · intro _
          exact ⟨langMsg, by simp [unpack_raw, h0, h1, hL]⟩
      · constructor
        · rintro ⟨e, he⟩
          simp [unpack_raw, h0, h1, hL] at he
        · rintro (hc | ⟨i', hi', hleast', hnone'⟩ |
            ⟨i', j', hi', hleast'', hj', hj3', hleastJ', hw⟩)
          · exact absurd hfa (hc i)
          · have hii : i' = i := least_fence_unique hi' hleast' hfa hleast
            subst hii
            exact absurd hfaJ (hnone' j hj3)
          · have hii : i' = i := least_fence_unique hi' hleast'' hfa hleast
            subst hii
            have hjj : j' = j :=
              least_fence_from_unique hj' hj3' hleastJ' hfaJ hj3 hleastJ
            subst hjj
            exact absurd ((startsWithWordChar_false_iff _).mp hw) hL

/-- Witness for C3: a block with fences but no language tag is rejected;
the third disjunct is established at the concrete indices 0 and 4. -/
theorem unpack_raw_err_iff_witness :
    ∃ e, unpack_raw "``` ```".data = .err e :=
  (unpack_raw_err_iff "``` ```".data).mpr
    (Or.inr (Or.inr ⟨0, 4, by decide, by decide, by decide, by decide,
      by decide, by decide⟩))

/-- C1 (amended): on an input consisting of backtick-free prefix text, the
opening fence, a non-empty word-character language tag, a newline, a
backtick-free source body and the closing fence, `_unpack_raw` succeeds with
the given language and source, and the returned argument string is the text
before the opening fence *followed by the fence itself*. -/
theorem unpack_raw_wellformed (p lang src : Str)
    (hp : ∀ c ∈ p, c ≠ btick)
    (hlang1 : lang ≠ [])
    (hlang2 : ∀ c ∈ lang, isWordChar c = true)
    (hsrc : ∀ c ∈ src, c ≠ btick) :
    unpack_raw ((p ++ fence) ++ (lang ++ '\n' :: (src ++ fence))) =
      .ok lang (p ++ fence) src := by
  have hq : lang ++ '\n' :: (src ++ fence) = (lang ++ '\n' :: src) ++ fence := by
    simp [List.append_assoc]
  have hqno : ∀ c ∈ lang ++ '\n' :: src, c ≠ btick := by
    intro c hc
    rcases List.mem_append.mp hc with h | h
    · intro he
      have hw := hlang2 c h
      rw [he] at hw
      exact absurd hw (by decide)
    · rcases List.mem_cons.mp h with h | h
      · rw [h]; decide
      · exact hsrc c h
  have hA : firstIdx fence ((p ++ fence) ++ (lang ++ '\n' :: (src ++ fence)))
      = some p.length := by
    rw [List.append_assoc, noBtick_firstIdx p _ hp,
      firstIdx_of_isPrefixOf (by simp [fence]) (isPrefixOf_append_self fence _)]
    simp
  have h0 : pyFind ((p ++ fence) ++ (lang ++ '\n' :: (src ++ fence))) fence 0
      = some p.length := by
    unfold pyFind
    rw [List.drop_zero, hA]
    simp
  have hlen : (p ++ fence).length = p.length + 3 := by simp [fence]
  have hdrop : ((p ++ fence) ++ (lang ++ '\n' :: (src ++ fence))).drop (p.length + 3)
      = lang ++ '\n' :: (src ++ fence) := by
    rw [← hlen, List.drop_left]
  have hB2 : firstIdx fence (lang ++ '\n' :: (src ++ fence))
      = some (lang.length + 1 + src.length) := by
    rw [hq, noBtick_firstIdx _ _ hqno,
      firstIdx_of_isPrefixOf fence_ne_nil (List.isPrefixOf_iff_prefix.mpr List.prefix_rfl)]
    simp
    omega
  have h1 : pyFind ((p ++ fence) ++ (lang ++ '\n' :: (src ++ fence))) fence (p.length + 3)
      = some (p.length + 3 + (lang.length + 1 + src.length)) := by
    unfold pyFind
    rw [hdrop, hB2]
    simp
    omega
  have hargs : ((p ++ fence) ++ (lang ++ '\n' :: (src ++ fence))).take (p.length + 3)
      = p ++ fence := by
    rw [← hlen, List.take_left]
  have hAlen : p.length + 3 + (lang.length + 1 + src.length)
      = ((p ++ fence) ++ (lang ++ '\n' :: src)).length := by
    simp [fence]
    omega
  have htakeinput : ((p ++ fence) ++ (lang ++ '\n' :: (src ++ fence))).take
        (p.length + 3 + (lang.length + 1 + src.length))
      = (p ++ fence) ++ (lang ++ '\n' :: src) := by
    rw [hq, ← List.append_assoc, hAlen, List.take_left]
  have hinner : (((p ++ fence) ++ (lang ++ '\n' :: (src ++ fence))).take
        (p.length + 3 + (lang.length + 1 + src.length))).drop (p.length + 3)
      = lang ++ '\n' :: src := by
    rw [htakeinput, ← hlen, List.drop_left]
  have hsw : startsWithWordChar ('\n' :: src) = false := rfl
  have hwhile : (lang ++ '\n' :: src).takeWhile isWordChar = lang :=
    takeWhile_word_append lang ('\n' :: src) hlang2 hsw
  have hne0 : lang.length ≠ 0 := fun h => hlang1 (List.length_eq_zero.mp h)
  have htake2 : (lang ++ '\n' :: src).take
        (p.length + 3 + (lang.length + 1 + src.length)) = lang ++ '\n' :: src := by
    apply List.take_of_length_le
    simp
    omega
  have hlang' : (lang ++ '\n' :: src).take lang.length = lang := List.take_left lang _
  have hdropsrc : (lang ++ '\n' :: src).drop (lang.length + 1) = src := by
    rw [List.drop_append_eq_append_drop]
    simp
  simp only [unpack_raw, h0, h1, hinner, hwhile, hne0, if_false, htake2, hlang',
    hdropsrc, hargs]


/-- C1 counterexample: on `"prefix ```lang\nSOURCE```"` the parser succeeds
with language `"lang"` and source `"SOURCE"`, but the returned argument string
is `"prefix ```"` — it includes the opening fence — not `"prefix "`. -/
theorem unpack_raw_c1_counterexample :
    unpack_raw "prefix ```lang\nSOURCE```".data =
      ParseResult.ok "lang".data "prefix ```".data "SOURCE".data ∧
    "prefix ```".data ≠ "prefix ".data := by
  decide

/-- Witness for the amended C1 theorem at the spec's example input. -/
theorem unpack_raw_wellformed_witness :
    unpack_raw (("prefix ".data ++ fence) ++
        ("lang".data ++ '\n' :: ("SOURCE".data ++ fence))) =
      .ok "lang".data ("prefix ".data ++ fence) "SOURCE".data :=
  unpack_raw_wellformed "prefix ".data "lang".data "SOURCE".data
    (by decide) (by decide) (by decide) (by decide)

/-- C2 counterexample: parsing `"```x\n\n```"` succeeds, but the source the
code returns is the one-character string `"\n"`, not the empty string: after
the language tag `"x"` exactly one separator character is skipped, and the
second newline remains part of the source. -/
theorem unpack_raw_c2_counterexample :
    unpack_raw "```x\n\n```".data =
      ParseResult.ok "x".data "```".data "\n".data ∧
    "\n".data ≠ "".data := by
  decide

/-- C2 (amended): parsing `"```x\n\n```"` succeeds and yields the source
`"\n"` (the newline that precedes the closing fence). -/
theorem unpack_raw_empty_source_block :
    unpack_raw "```x\n\n```".data =
      ParseResult.ok "x".data "```".data "\n".data := by
  decide

/-- C4: `_to_codeblock` returns the empty string on an empty fragment list;
otherwise it joins the fragments' `text` fields with newline separators,
truncates the joined text to its first `limit` characters — exactly `limit`
characters when the joined text is longer — and wraps the result in the fixed
fence markers.  Being a total function of `data` and `limit : Nat`, it never
raises for any `limit ≥ 0`. -/
theorem to_codeblock_spec (data : List Fragment) (limit : Nat) :
    (data = [] → to_codeblock data limit = []) ∧
    (data ≠ [] →
      to_codeblock data limit =
        opener ++ (joinNL (data.map Fragment.text)).take limit ++ fence ∧
      (limit < (joinNL (data.map Fragment.text)).length →
        ((joinNL (data.map Fragment.text)).take limit).length = limit)) := by
  constructor
  · intro h
    subst h
    rfl
  · intro h
    have hlen : data.length ≠ 0 := fun hl => h (List.length_eq_zero.mp hl)
    refine ⟨by simp [to_codeblock, hlen], fun hlt => ?_⟩
    rw [List.length_take]
    exact Nat.min_eq_left (Nat.le_of_lt hlt)

/-- Witness for C4 at an empty and a non-empty concrete fragment list. -/
theorem to_codeblock_spec_witness :
    to_codeblock ([] : List Fragment) 500 = [] ∧
    to_codeblock [⟨"ab".data⟩] 1 =
      opener ++ (joinNL ([⟨"ab".data⟩].map Fragment.text)).take 1 ++ fence :=
  ⟨(to_codeblock_spec [] 500).1 rfl,
   ((to_codeblock_spec [⟨"ab".data⟩] 1).2 (by decide)).1⟩

/-- C5: on every successfully parsed input, the disassemble command builds its
request from the `Disassemble` preset: execution-request flag false,
skip-assembly flag false, exactly the fixed filter set, and an empty
`userArguments` string regardless of the preceding-argument string parsed from
the input. -/
theorem godbolt_asm_request_preset (compiler : String) (raw lang args source : Str)
    (h : unpack_raw raw = .ok lang args source) :
    ∃ opts : CompilerOptions,
      godbolt_asm_phase1 compiler raw =
        .httpRequest ⟨source, compiler, lang, opts, false⟩ ∧
      opts.compilerOptions.lookup "executorRequest" = some false ∧
      opts.compilerOptions.lookup "skipAsm" = some false ∧
      opts.filters = [("binary", false), ("commentOnly", true), ("demangle", true),
        ("directives", true), ("execute", false), ("intel", true),
        ("labels", true), ("libraryCode", false), ("trim", false)] ∧
      opts.userArguments = [] := by
  refine ⟨CompilerOptions.default_disassembly [], ?_, by decide, by decide, by decide, rfl⟩
  simp [godbolt_asm_phase1, h]

/-- Witness for C5 at a concrete raw block (whose parsed `args` is the fence). -/
theorem godbolt_asm_request_preset_witness :
    ∃ opts : CompilerOptions,
      godbolt_asm_phase1 "g82" "```c\nint x;```".data =
        .httpRequest ⟨"int x;".data, "g82", "c".data, opts, false⟩ ∧
      opts.compilerOptions.lookup "executorRequest" = some false ∧
      opts.compilerOptions.lookup "skipAsm" = some false ∧
      opts.filters = [("binary", false), ("commentOnly", true), ("demangle", true),
        ("directives", true), ("execute", false), ("intel", true),
        ("labels", true), ("libraryCode", false), ("trim", false)] ∧
      opts.userArguments = [] :=
  godbolt_asm_request_preset "g82" "```c\nint x;```".data
    "c".data "```".data "int x;".data (by decide)

/-- C6 counterexample: on an executed response the status string produced by
the code is `"Execution successful."` — with a trailing period — so it is not
the claimed `"Execution successful"`. -/
theorem godbolt_run_status_counterexample :
    (godbolt_run_interpret respExecuted).build_result ≠
      "Execution successful".data := by
  decide

/-- C6 (amended): if the response's `didExecute` flag is true the status is
`"Execution successful."` and stdout, stderr and exit code are taken from the
top-level fields; if it is false the status is `"**Compilation failed.**"` and
they are taken from the nested `buildResult` record; an empty stdout or stderr
fragment list renders as `"EMPTY"`. -/
theorem godbolt_run_interpretation (resp : ExecResponse) :
    (resp.didExecute = true →
      (godbolt_run_interpret resp).build_result = "Execution successful.".data ∧
      (godbolt_run_interpret resp).exit_code = resp.code ∧
      (godbolt_run_interpret resp).stdout = orEmpty (to_codeblock resp.stdout 500) ∧
      (godbolt_run_interpret resp).stderr = orEmpty (to_codeblock resp.stderr 500) ∧
      (resp.stdout = [] → (godbolt_run_interpret resp).stdout = "EMPTY".data) ∧
      (resp.stderr = [] → (godbolt_run_interpret resp).stderr = "EMPTY".data)) ∧
    (resp.didExecute = false →
      (godbolt_run_interpret resp).build_result = "**Compilation failed.**".data ∧
      (godbolt_run_interpret resp).exit_code = resp.buildResult.code ∧
      (godbolt_run_interpret resp).stdout =
        orEmpty (to_codeblock resp.buildResult.stdout 500) ∧
      (godbolt_run_interpret resp).stderr =
        orEmpty (to_codeblock resp.buildResult.stderr 500) ∧
      (resp.buildResult.stdout = [] →
        (godbolt_run_interpret resp).stdout = "EMPTY".data) ∧
      (resp.buildResult.stderr = [] →
        (godbolt_run_interpret resp).stderr = "EMPTY".data)) := by
  constructor
  · intro h
    refine ⟨by simp [godbolt_run_interpret, h], by simp [godbolt_run_interpret, h],
      by simp [godbolt_run_interpret, h], by simp [godbolt_run_interpret, h],
      fun h2 => by simp [godbolt_run_interpret, h, h2, to_codeblock, orEmpty],
      fun h2 => by simp [godbolt_run_interpret, h, h2, to_codeblock, orEmpty]⟩
  · intro h
    refine ⟨by simp [godbolt_run_interpret, h], by simp [godbolt_run_interpret, h],
      by simp [godbolt_run_interpret, h], by simp [godbolt_run_interpret, h],
      fun h2 => by simp [godbolt_run_interpret, h, h2, to_codeblock, orEmpty],
      fun h2 => by simp [godbolt_run_interpret, h, h2, to_codeblock, orEmpty]⟩

/-- Witness for the amended C6 theorem at concrete executed and failed
responses. -/
theorem godbolt_run_interpretation_witness :
    (godbolt_run_interpret respExecuted).build_result =
      "Execution successful.".data ∧
    (godbolt_run_interpret respFailed).build_result =
      "**Compilation failed.**".data :=
  ⟨((godbolt_run_interpretation respExecuted).1 rfl).1,
   ((godbolt_run_interpretation respFailed).2 rfl).1⟩

/-- C7 counterexample: on a zero-exit-code response the status string produced
by the code is `"Compilation successful."` — with a trailing period — so it is
not the claimed `"Compilation successful"`. -/
theorem godbolt_asm_status_counterexample :
    (godbolt_asm_interpret asmRespOk).1 ≠ "Compilation successful".data := by
  decide

/-- C7 (amended): if the response's exit code is zero the status is
`"Compilation successful."` and the output is the `asm` fragment sequence
formatted with limit 1500; otherwise the status is `"**Compilation failed.**"`
and the output is the `stderr` fragment sequence formatted with limit 1500. -/
theorem godbolt_asm_interpretation (resp : AsmResponse) :
    (resp.code = 0 →
      godbolt_asm_interpret resp =
        ("Compilation successful.".data, to_codeblock resp.asm 1500)) ∧
    (resp.code ≠ 0 →
      godbolt_asm_interpret resp =
        ("**Compilation failed.**".data, to_codeblock resp.stderr 1500)) := by
  constructor
  · intro h
    simp [godbolt_asm_interpret, h]
  · intro h
    simp [godbolt_asm_interpret, h]

/-- Witness for the amended C7 theorem at concrete responses. -/
theorem godbolt_asm_interpretation_witness :
    godbolt_asm_interpret asmRespOk =
      ("Compilation successful.".data, to_codeblock asmRespOk.asm 1500) ∧
    godbolt_asm_interpret asmRespBad =
      ("**Compilation failed.**".data, to_codeblock asmRespBad.stderr 1500) :=
  ⟨(godbolt_asm_interpretation asmRespOk).1 rfl,
   (godbolt_asm_interpretation asmRespBad).2 (by decide)⟩

/-- C8: whenever the parser fails on a raw block, both the run command and the
disassemble command send exactly one message — "Error in formatting. " followed
by the failure reason — and return without building a request or issuing any
HTTP call. -/
theorem commands_on_parse_failure (compiler : String) (comp_args : Str)
    (raw e : Str) (h : unpack_raw raw = .err e) :
    godbolt_run_phase1 compiler comp_args raw = .sendMsg (errPreamble ++ e) ∧
    godbolt_asm_phase1 compiler raw = .sendMsg (errPreamble ++ e) := by
  constructor
  · simp [godbolt_run_phase1, h]
  · simp [godbolt_asm_phase1, h]

/-- Witness for C8 at a raw block with no fence at all. -/
theorem commands_on_parse_failure_witness :
    godbolt_run_phase1 "g82" [] "plain text".data =
      .sendMsg (errPreamble ++ fmtMsg) ∧
    godbolt_asm_phase1 "g82" "plain text".data =
      .sendMsg (errPreamble ++ fmtMsg) :=
  commands_on_parse_failure "g82" [] "plain text".data fmtMsg (by decide)

/-- C9: whenever `_unpack_raw` succeeds the returned argument string is
non-empty and ends with the three backticks of the opening fence, which is
always included in it. -/
theorem unpack_raw_args_ends_with_fence (raw lang args source : Str)
    (h : unpack_raw raw = .ok lang args source) :
    args ≠ [] ∧ ∃ q, args = q ++ fence := by
  rcases h0 : pyFind raw fence 0 with _ | i
  · simp [unpack_raw, h0] at h
  · rcases h1 : pyFind raw fence (i + 3) with _ | j
    · simp [unpack_raw, h0, h1] at h
    · by_cases hL : (((raw.take j).drop (i + 3)).takeWhile isWordChar).length = 0
      · simp [unpack_raw, h0, h1, hL] at h
      · simp only [unpack_raw, h0, h1, hL, if_false] at h
        obtain ⟨-, hargs, -⟩ := ParseResult.ok.inj h
        obtain ⟨-, hI, -⟩ := (pyFind_some_iff fence_ne_nil raw 0 i).mp h0
        obtain ⟨t, ht⟩ := isPrefixOf_exists hI
        have hi_le : i ≤ raw.length := by
          by_contra hgt
          rw [List.drop_eq_nil_of_le (by omega)] at ht
          exact fence_ne_nil (List.append_eq_nil.mp ht.symm).1
        have hmin : min i raw.length = i := Nat.min_eq_left hi_le
        have htk : raw.take (i + 3) = raw.take i ++ fence := by
          conv_lhs => rw [← List.take_append_drop i raw]
          rw [ht, List.take_append_eq_append_take,
            List.take_of_length_le (by rw [List.length_take]; omega)]
          congr 1
          rw [List.length_take, hmin]
          have h3 : i + 3 - i = 3 := by omega
          rw [h3, show (3 : Nat) = fence.length from rfl, List.take_left]
        rw [← hargs, htk]
        constructor
        · intro hnil
          have := congrArg List.length hnil
          simp [fence] at this
        · exact ⟨raw.take i, rfl⟩


/-- Witness for C9 at a concrete raw block. -/
theorem unpack_raw_args_witness :
    "```".data ≠ ([] : Str) ∧ ∃ q, ("```".data : Str) = q ++ fence :=
  unpack_raw_args_ends_with_fence "```x\ny```".data
    "x".data "```".data "y".data (by decide)

/-- C10: for every non-empty fragment list and every `limit`, the formatter
output starts with the fence marker followed by a newline, ends with the fence
marker, and is at most `limit + 7` characters long. -/
theorem to_codeblock_shape (data : List Fragment) (limit : Nat) (h : data ≠ []) :
    opener.isPrefixOf (to_codeblock data limit) = true ∧
    fence.isSuffixOf (to_codeblock data limit) = true ∧
    (to_codeblock data limit).length ≤ limit + 7 := by
  have hlen : data.length ≠ 0 := fun hl => h (List.length_eq_zero.mp hl)
  have he : to_codeblock data limit =
      opener ++ (joinNL (data.map Fragment.text)).take limit ++ fence := by
    simp [to_codeblock, hlen]
  rw [he]
  refine ⟨?_, ?_, ?_⟩
  · rw [List.append_assoc]
    exact isPrefixOf_append_self opener _
  · apply List.isSuffixOf_iff_suffix.mpr
    exact ⟨opener ++ (joinNL (data.map Fragment.text)).take limit, by
      rw [List.append_assoc]⟩
  · have ht := List.length_take_le limit (joinNL (data.map Fragment.text))
    simp only [List.length_append]
    have ho : opener.length = 4 := rfl
    have hf : fence.length = 3 := rfl
    omega

/-- Witness for C10 at a concrete non-empty fragment list. -/
theorem to_codeblock_shape_witness :
    opener.isPrefixOf (to_codeblock [⟨"hi".data⟩] 500) = true ∧
    fence.isSuffixOf (to_codeblock [⟨"hi".data⟩] 500) = true ∧
    (to_codeblock [⟨"hi".data⟩] 500).length ≤ 500 + 7 :=
  to_codeblock_shape [⟨"hi".data⟩] 500 (by decide)

end Godbolt
